import Mathlib

/-!
Shallow embedding of `src/trl/trainer/trajectory_logger.py` (class
`TrajectoryLogger`): the in-flight trajectory recorder (`log_turn`), the
finalizer (`finalize_trajectories`) and the report generator
(`generate_html_report`).

Python dicts are modelled as association lists (`lookupA` / `eraseA` /
`bumpA`), the `defaultdict(int)` counter as an association list read through
`getA` with default 0. Filesystem writes are modelled as a list of
written records; the nondeterministic `datetime.now().isoformat()` is an
explicit `now` argument. A PIL image is modelled by its observable
behaviour at the one capability the code probes: whether `hasattr(image,
"save")` holds and whether `image.save(path)` raises (`ImageObj`). Rewards
(Python floats produced by `dict.get("reward", 0.0)` and compared with
`>= 0`) are modelled as `Rat`; the claims checked here only involve exact
comparisons at the zero boundary. A Python `IndexError` escaping
`finalize_trajectories` is modelled by the `error` flag of
`FinalizeResult`, with the state and writes as mutated up to the raise
(CPython mutates in place, so partial effects survive the exception).
-/

namespace TrajLog

/-- Association-list lookup: first binding wins, like a Python dict with
unique keys. -/
def lookupA {α β : Type} [DecidableEq α] : List (α × β) → α → Option β
  | [], _ => none
  | (k, v) :: rest, key => if k = key then some v else lookupA rest key

/-- Association-list deletion (`del d[k]`). -/
def eraseA {α β : Type} [DecidableEq α] : List (α × β) → α → List (α × β)
  | [], _ => []
  | (k, v) :: rest, key => if k = key then eraseA rest key else (k, v) :: eraseA rest key

/-- Read of the `defaultdict(int)` per-step counter. -/
def getA (l : List (Nat × Nat)) (s : Nat) : Nat :=
  (lookupA l s).getD 0

/-- `self.trajectories_logged_per_step[step] += 1` on the `defaultdict(int)`. -/
def bumpA : List (Nat × Nat) → Nat → List (Nat × Nat)
  | [], s => [(s, 1)]
  | (k, v) :: rest, s => if k = s then (k, v + 1) :: rest else (k, v) :: bumpA rest s

/-- Zero-pad a natural to `width` digits, as Python `f"{n:0{width}d}"` does
for nonnegative `n` (wider numbers print in full). -/
def padNum (width n : Nat) : String :=
  let s := toString n
  String.mk (List.replicate (width - s.length) '0') ++ s

/-- `traj_id = f"step{step:06d}_p{prompt_idx:03d}_g{gen_idx:02d}"`
(trajectory_logger.py line 99). -/
def trajIdOf (step prompt_idx gen_idx : Nat) : String :=
  "step" ++ padNum 6 step ++ "_p" ++ padNum 3 prompt_idx ++ "_g" ++ padNum 2 gen_idx

/-- The constructor arguments of `TrajectoryLogger.__init__` that influence
recorded data (`output_dir` and the directory creation are pure I/O). -/
structure Config where
  save_images : Bool
  save_prompts : Bool
  save_responses : Bool
  max_trajectories_per_step : Option Nat

/-- Key of `self.active_trajectories`: `(step, prompt_idx, gen_idx)`. -/
abbrev TrajKey := Nat × Nat × Nat

/-- One entry of a trajectory's `turns` list (the `turn_data` dict built in
`log_turn`, lines 114-140): absent dict keys are `none`. -/
structure TurnData where
  turn_idx : Nat
  prompt : Option String
  response : Option String
  image_path : Option String
  image_error : Option String
deriving DecidableEq

/-- One value of `self.active_trajectories` (lines 103-111): the metadata
dict holds `step`, `prompt_idx`, `gen_idx` until finalization. -/
structure InFlightTrajectory where
  trajectory_id : String
  turns : List TurnData
  md_step : Nat
  md_prompt_idx : Nat
  md_gen_idx : Nat
deriving DecidableEq

/-- The recorder's mutable state: `self.active_trajectories` and
`self.trajectories_logged_per_step`. -/
structure LoggerState where
  active : List (TrajKey × InFlightTrajectory)
  counts : List (Nat × Nat)
deriving DecidableEq

/-- A fresh `TrajectoryLogger` (empty dict, empty counter). -/
def initState : LoggerState :=
  { active := [], counts := [] }

/-- Model of the duck-typed image collaborator: `hasSave` is
`hasattr(image, "save")`; `saveRaises = some e` means `image.save(path)`
raises an exception whose `str` is `e`; `typeName` is `str(type(image))`. -/
structure ImageObj where
  hasSave : Bool
  saveRaises : Option String
  typeName : String

/-- The tokenizer collaborator: `processing_class.decode(prompt_ids,
skip_special_tokens=True)` as an uninterpreted function. -/
abbrev Decoder := List Nat → String

/-- The arguments of one `log_turn` call. -/
structure Call where
  step : Nat
  prompt_idx : Nat
  gen_idx : Nat
  turn_idx : Nat
  prompt_ids : List Nat
  completion : String
  image : Option ImageObj
  processing_class : Option Decoder

/-- The trajectory key of a call. -/
def keyOf (c : Call) : TrajKey :=
  (c.step, c.prompt_idx, c.gen_idx)

/-- The quota test of lines 92-95: `max_trajectories_per_step is not None
and trajectories_logged_per_step[step] >= max_trajectories_per_step`. -/
def limitReached (cfg : Config) (st : LoggerState) (step : Nat) : Bool :=
  match cfg.max_trajectories_per_step with
  | none => false
  | some m => decide (m ≤ getA st.counts step)

/-- The `image_path` / `image_error` fields produced by lines 127-140: the
`hasattr` probe and the save both sit inside the `try`, a raise is caught
and stored as `str(e)`, a missing save capability stores
`f"Not a PIL Image: {type(image)}"`. -/
def imageFields (cfg : Config) (traj_id : String) (turn_idx : Nat)
    (image : Option ImageObj) : Option String × Option String :=
  match cfg.save_images, image with
  | true, some img =>
    let image_filename := traj_id ++ "_turn" ++ padNum 2 turn_idx ++ ".png"
    if img.hasSave then
      match img.saveRaises with
      | none => (some ("images/" ++ image_filename), none)
      | some e => (none, some e)
    else
      (none, some ("Not a PIL Image: " ++ img.typeName))
  | _, _ => (none, none)

/-- The `turn_data` dict built by lines 114-140 for one call. -/
def mkTurnData (cfg : Config) (c : Call) : TurnData :=
  let traj_id := trajIdOf c.step c.prompt_idx c.gen_idx
  let prompt : Option String :=
    match cfg.save_prompts, c.processing_class with
    | true, some d => some (d c.prompt_ids)
    | _, _ => none
  let response : Option String :=
    if cfg.save_responses then some c.completion else none
  let fields := imageFields cfg traj_id c.turn_idx c.image
  { turn_idx := c.turn_idx, prompt := prompt, response := response,
    image_path := fields.1, image_error := fields.2 }

/-- `self.active_trajectories[traj_key]["turns"].append(turn_data)`
(line 143): the entry stored at the key gets the turn appended, every
other binding is unchanged. -/
def appendTurn : List (TrajKey × InFlightTrajectory) → TrajKey → TurnData →
    List (TrajKey × InFlightTrajectory)
  | [], _, _ => []
  | (a, t) :: rest, k, td =>
    if a = k then (a, { t with turns := t.turns ++ [td] }) :: appendTurn rest k td
    else (a, t) :: appendTurn rest k td

/-- `TrajectoryLogger.log_turn` (lines 67-143): the quota early return, the
first-turn allocation with counter increment, then the turn append. -/
def log_turn (cfg : Config) (st : LoggerState) (c : Call) : LoggerState :=
  if limitReached cfg st c.step then st
  else
    let traj_key := keyOf c
    let traj_id := trajIdOf c.step c.prompt_idx c.gen_idx
    let st1 : LoggerState :=
      match lookupA st.active traj_key with
      | some _ => st
      | none =>
        { active := st.active ++
            [(traj_key,
              { trajectory_id := traj_id, turns := [], md_step := c.step,
                md_prompt_idx := c.prompt_idx, md_gen_idx := c.gen_idx })],
          counts := bumpA st.counts c.step }
    { st1 with active := appendTurn st1.active traj_key (mkTurnData cfg c) }

/-- A sequence of `log_turn` calls on one logger. -/
def runCalls (cfg : Config) (st : LoggerState) (cs : List Call) : LoggerState :=
  cs.foldl (log_turn cfg) st

/-- One entry of the `trajectories` argument of `finalize_trajectories`: a
dict read through `.get` with defaults (lines 177-183). -/
structure Outcome where
  reward : Option Rat
  trajectory_length : Option Nat
  done : Option Bool
  terminated_naturally : Option Bool
deriving DecidableEq

/-- The JSON document written for one trajectory (lines 174-189). `reward`
is an `Option` because `generate_html_report` reads the files back through
`.get("reward", 0.0)`; `finalize_trajectories` always writes `some`. -/
structure FinalizedTrajectory where
  trajectory_id : String
  turns : List TurnData
  md_step : Nat
  md_prompt_idx : Nat
  md_gen_idx : Nat
  mode : String
  timestamp : String
  trajectory_length : Nat
  done : Bool
  terminated_naturally : Bool
  reward : Option Rat
deriving DecidableEq

/-- The metadata update, reward attachment and JSON document of
lines 174-189 for one in-flight trajectory and its outcome dict. -/
def finalizeOne (logged : InFlightTrajectory) (traj : Outcome)
    (mode now : String) : FinalizedTrajectory :=
  { trajectory_id := logged.trajectory_id
    turns := logged.turns
    md_step := logged.md_step
    md_prompt_idx := logged.md_prompt_idx
    md_gen_idx := logged.md_gen_idx
    mode := mode
    timestamp := now
    trajectory_length := traj.trajectory_length.getD 0
    done := traj.done.getD false
    terminated_naturally := traj.terminated_naturally.getD false
    reward := some (traj.reward.getD 0) }

/-- `num_generations = len(trajectories[0]) if num_prompts > 0 else 0`
(line 160). -/
def numGenerationsOf (trajectories : List (List Outcome)) : Nat :=
  match trajectories with
  | [] => 0
  | row0 :: _ => row0.length

/-- The value of `trajectories[prompt_idx][gen_idx]`, or `none` when that
unguarded double index would raise an `IndexError` (row index past
`len(trajectories)` or column index past the row's own length). -/
def outcomeAt (trajectories : List (List Outcome)) (p g : Nat) : Option Outcome :=
  (trajectories.get? p).bind fun row => row.get? g

/-- The double loop of lines 162-192, iterated over the explicit pair list:
skip a pair with no in-flight trajectory; otherwise read the outcome
(`trajectories[prompt_idx][gen_idx]`, raising on a missing position), write
the finalized record keyed by its trajectory key, and delete the key. The
Bool result is the raised-IndexError flag; on a raise the state and writes
accumulated so far are kept, as in CPython (the dict and the files written
before the raise are already mutated). -/
def processPairs (trajectories : List (List Outcome)) (step : Nat)
    (mode now : String) :
    List (Nat × Nat) → LoggerState → List (TrajKey × FinalizedTrajectory) →
    LoggerState × List (TrajKey × FinalizedTrajectory) × Bool
  | [], st, ws => (st, ws, false)
  | (p, g) :: rest, st, ws =>
    match lookupA st.active (step, p, g), outcomeAt trajectories p g with
    | none, _ => processPairs trajectories step mode now rest st ws
    | some _, none => (st, ws, true)
    | some logged, some traj =>
      processPairs trajectories step mode now rest
        { st with active := eraseA st.active (step, p, g) }
        (ws ++ [((step, p, g), finalizeOne logged traj mode now)])

/-- The outcome of one `finalize_trajectories` call: the state after it,
the JSON writes it performed in order, the warning count it printed (if
any), and whether an IndexError escaped. -/
structure FinalizeResult where
  state : LoggerState
  writes : List (TrajKey × FinalizedTrajectory)
  warning : Option Nat
  error : Bool
deriving DecidableEq

/-- The `(prompt_idx, gen_idx)` pairs the nested loops of lines 162-163
visit, in visiting order: `num_prompts = len(trajectories)` rows, each of
`num_generations = len(trajectories[0])` columns. -/
def pairsOf (trajectories : List (List Outcome)) : List (Nat × Nat) :=
  (List.range trajectories.length).flatMap fun p =>
    (List.range (numGenerationsOf trajectories)).map fun g => (p, g)

/-- `TrajectoryLogger.finalize_trajectories` (lines 145-198): the
rectangular pair loop driven by `len(trajectories)` and
`len(trajectories[0])`, then the cleanup of lines 194-198, which counts and
clears ALL remaining in-flight trajectories (every step) and prints the
warning. The cleanup is skipped when the loop raised. -/
def finalize_trajectories (st : LoggerState) (trajectories : List (List Outcome))
    (step : Nat) (mode now : String) : FinalizeResult :=
  match processPairs trajectories step mode now (pairsOf trajectories) st [] with
  | (st1, ws, true) => { state := st1, writes := ws, warning := none, error := true }
  | (st1, ws, false) =>
    if st1.active.isEmpty then
      { state := st1, writes := ws, warning := none, error := false }
    else
      { state := { st1 with active := [] }, writes := ws,
        warning := some st1.active.length, error := false }

/-- `reward_class = "positive" if reward >= 0 else "negative"` (line 250). -/
def rewardClass (reward : Rat) : String :=
  if 0 ≤ reward then "positive" else "negative"

/-- Whether a trajectory file name matches the glob pattern of lines
210-213: `f"step{step:06d}_*.json"` for a given step, `"*.json"` otherwise
(file names are `{traj_id}.json`, so the test is a prefix test on the
trajectory id). -/
def stepMatches (step : Option Nat) (fname : String) : Bool :=
  match step with
  | some s => ("step" ++ padNum 6 s ++ "_").data.isPrefixOf fname.data
  | none => true

/-- Insertion into a lexicographically sorted list of names. -/
def insertSorted (x : String) : List String → List String
  | [] => [x]
  | y :: ys => if x < y then x :: y :: ys else y :: insertSorted x ys

/-- `sorted(glob.glob(pattern))` (line 215). -/
def sortStrings : List String → List String
  | [] => []
  | x :: xs => insertSorted x (sortStrings xs)

/-- The observable outcome of `generate_html_report`: the written report
file name (`none` models the early `return` of lines 217-219, which writes
nothing), the "No trajectories found" print flag, and per rendered
trajectory its file name and the `reward_class` used for it (the rest of
the HTML assembly carries no further recorder state). -/
structure ReportResult where
  output : Option String
  notFound : Bool
  entries : List (String × String)
deriving DecidableEq

/-- What lines 244-259 render for one trajectory file: the file and the
`reward_class` chosen from `traj_data.get("reward", 0.0)`. -/
def renderEntry (storage : List (String × FinalizedTrajectory)) (f : String) :
    String × String :=
  match lookupA storage f with
  | some rec => (f, rewardClass (rec.reward.getD 0))
  | none => (f, "")

/-- The report file name of lines 307-310: `report_step{step:06d}.html`
or `report_all.html`. -/
def reportName (step : Option Nat) : String :=
  match step with
  | some s => "report_step" ++ padNum 6 s ++ ".html"
  | none => "report_all.html"

/-- `trajectory_files = sorted(glob.glob(pattern))` (lines 210-215) over
the durable store. -/
def trajectoryFilesOf (storage : List (String × FinalizedTrajectory))
    (step : Option Nat) : List String :=
  sortStrings ((storage.filter fun kv => stepMatches step kv.1).map fun kv => kv.1)

/-- `TrajectoryLogger.generate_html_report` (lines 200-316) over a durable
store of trajectory id / record pairs: glob-filter by step, sort, early
return with the not-found print when nothing matches, otherwise render
each record and write the report document. -/
def generate_html_report (storage : List (String × FinalizedTrajectory))
    (step : Option Nat) : ReportResult :=
  if (trajectoryFilesOf storage step).isEmpty then
    { output := none, notFound := true, entries := [] }
  else
    { output := some (reportName step), notFound := false,
      entries := (trajectoryFilesOf storage step).map (renderEntry storage) }

/-- The turns currently stored for a key (empty when the key has no
in-flight trajectory). -/
def turnsOf (st : LoggerState) (k : TrajKey) : List TurnData :=
  match lookupA st.active k with
  | none => []
  | some t => t.turns

/-- Whether a `log_turn` call allocates a new `InFlightTrajectory`
(lines 101-112 run with the key absent). -/
def createsB (cfg : Config) (st : LoggerState) (c : Call) : Bool :=
  !limitReached cfg st c.step && (lookupA st.active (keyOf c)).isNone

/-- How many `InFlightTrajectory` allocations a call sequence performs for
step `s`, instrumenting `runCalls`. -/
def creationsFrom (cfg : Config) : LoggerState → List Call → Nat → Nat
  | _, [], _ => 0
  | st, c :: rest, s =>
    (if createsB cfg st c = true ∧ c.step = s then 1 else 0) +
      creationsFrom cfg (log_turn cfg st c) rest s

/-! ## Concrete fixtures used by the closed theorems and witnesses -/

/-- A logger with only response saving and a per-step quota of 1. -/
def cfgQuota1 : Config := ⟨false, false, true, some 1⟩

/-- A logger with only response saving and a per-step quota of 2. -/
def cfgQuota2 : Config := ⟨false, false, true, some 2⟩

/-- A logger with only response saving and no quota. -/
def cfgNoMax : Config := ⟨false, false, true, none⟩

/-- A logger that also saves images, no quota. -/
def cfgImg : Config := ⟨true, false, true, none⟩

/-- Turn 0 of trajectory (step 0, prompt 0, generation 0). -/
def callA0 : Call := ⟨0, 0, 0, 0, [], "a", none, none⟩

/-- Turn 1 of the same trajectory (step 0, prompt 0, generation 0). -/
def callA1 : Call := ⟨0, 0, 0, 1, [], "b", none, none⟩

/-- Turn 0 of trajectory (step 0, prompt 1, generation 0). -/
def callC0 : Call := ⟨0, 1, 0, 0, [], "c", none, none⟩

/-- Turn 0 of trajectory (step 0, prompt 2, generation 0). -/
def callD0 : Call := ⟨0, 2, 0, 0, [], "d", none, none⟩

/-- Turn 0 of trajectory (step 1, prompt 0, generation 0). -/
def callY0 : Call := ⟨1, 0, 0, 0, [], "y", none, none⟩

/-- Turn 0 of trajectory (step 0, prompt 1, generation 1). -/
def callZ0 : Call := ⟨0, 1, 1, 0, [], "z", none, none⟩

/-- An object without a save capability (`hasattr(image, "save")` false). -/
def imgBad : ImageObj := ⟨false, none, "int"⟩

/-- A `log_turn` call carrying the save-incapable image. -/
def callImgBad : Call := ⟨0, 0, 0, 0, [], "r", some imgBad, none⟩

/-- State after one admitted call under quota 1: the counter for step 0 is
already at the quota. -/
def stA1 : LoggerState := log_turn cfgQuota1 initState callA0

/-- State after a second call for the already-admitted key under quota 1. -/
def stA2 : LoggerState := log_turn cfgQuota1 stA1 callA1

/-- State after one admitted call under quota 2 (counter below quota). -/
def stB1 : LoggerState := log_turn cfgQuota2 initState callA0

/-- The in-flight trajectory stored in `stB1` for key (0, 0, 0). -/
def tB : InFlightTrajectory :=
  ⟨trajIdOf 0 0 0, [mkTurnData cfgQuota2 callA0], 0, 0, 0⟩

/-- A full outcome dict. -/
def outcome1 : Outcome := ⟨some 1, some 2, some true, some false⟩

/-- In-flight state holding keys of two different steps (0 and 1). -/
def stCross : LoggerState := runCalls cfgNoMax initState [callA0, callY0]

/-- `finalize_trajectories` for step 0 on `stCross`: the step-1 trajectory
is also swept up by the cleanup of lines 194-198. -/
def resCross : FinalizeResult :=
  finalize_trajectories stCross [[outcome1]] 0 "train" "t0"

/-- In-flight state holding keys (0,0,0) and (0,1,1) of step 0. -/
def st9 : LoggerState := runCalls cfgNoMax initState [callA0, callZ0]

/-- `finalize_trajectories` on a ragged outcome structure: row 0 has two
entries, row 1 only one, and a logged trajectory sits at position (1,1). -/
def res9 : FinalizeResult :=
  finalize_trajectories st9 [[outcome1, outcome1], [outcome1]] 0 "train" "t9"

/-- A single-trajectory in-flight state used for the idempotence witness. -/
def st7 : LoggerState := runCalls cfgNoMax initState [callA0]

/-- A durable record for step 1 (used by the report witnesses). -/
def recStep1 : FinalizedTrajectory :=
  finalizeOne ⟨trajIdOf 1 0 0, [], 1, 0, 0⟩ outcome1 "train" "tw"

/-- A durable store holding only the step-1 record. -/
def storageOne : List (String × FinalizedTrajectory) := [(trajIdOf 1 0 0, recStep1)]

/-- A durable record whose JSON document carries no reward key. -/
def recNoReward : FinalizedTrajectory :=
  ⟨trajIdOf 0 0 0, [], 0, 0, 0, "train", "tz", 2, true, true, none⟩

/-- A durable store holding only the reward-less record. -/
def storage10 : List (String × FinalizedTrajectory) := [(trajIdOf 0 0 0, recNoReward)]

/-! ## Association-list lemmas -/

theorem lookupA_cons {α β : Type} [DecidableEq α] (a : α) (b : β)
    (rest : List (α × β)) (key : α) :
    lookupA ((a, b) :: rest) key = if a = key then some b else lookupA rest key := rfl

theorem lookupA_append_of_none {α β : Type} [DecidableEq α] {l : List (α × β)} {k' : α}
    (h : lookupA l k' = none) (k : α) (v : β) :
    lookupA (l ++ [(k, v)]) k' = if k = k' then some v else none := by
  induction l with
  | nil => simp [lookupA]
  | cons kv rest ih =>
    obtain ⟨a, b⟩ := kv
    rw [lookupA_cons] at h
    rw [List.cons_append, lookupA_cons]
    by_cases hak : a = k'
    · rw [if_pos hak] at h
      exact absurd h (by simp)
    · rw [if_neg hak] at h
      rw [if_neg hak]
      exact ih h

theorem lookupA_append_of_some {α β : Type} [DecidableEq α] {l : List (α × β)} {k' : α}
    {w : β} (h : lookupA l k' = some w) (k : α) (v : β) :
    lookupA (l ++ [(k, v)]) k' = some w := by
  induction l with
  | nil => simp [lookupA] at h
  | cons kv rest ih =>
    obtain ⟨a, b⟩ := kv
    rw [lookupA_cons] at h
    rw [List.cons_append, lookupA_cons]
    by_cases hak : a = k'
    · rw [if_pos hak] at h ⊢
      exact h
    · rw [if_neg hak] at h ⊢
      exact ih h

theorem lookupA_appendTurn (l : List (TrajKey × InFlightTrajectory)) (k : TrajKey)
    (td : TurnData) (k' : TrajKey) :
    lookupA (appendTurn l k td) k' =
      (lookupA l k').map
        (fun t => if k' = k then { t with turns := t.turns ++ [td] } else t) := by
  induction l with
  | nil => simp [lookupA, appendTurn]
  | cons kv rest ih =>
    obtain ⟨a, t⟩ := kv
    by_cases hak : a = k
    · rw [appendTurn, if_pos hak]
      by_cases hak' : a = k'
      · rw [lookupA_cons, lookupA_cons, if_pos hak', if_pos hak']
        have hkk : k' = k := hak' ▸ hak
        simp [hkk]
      · rw [lookupA_cons, lookupA_cons, if_neg hak', if_neg hak']
        exact ih
    · rw [appendTurn, if_neg hak]
      by_cases hak' : a = k'
      · rw [lookupA_cons, lookupA_cons, if_pos hak', if_pos hak']
        have hkk : ¬ k' = k := fun hh => hak (hak'.trans hh)
        simp [hkk]
      · rw [lookupA_cons, lookupA_cons, if_neg hak', if_neg hak']
        exact ih

theorem lookupA_eraseA_self {α β : Type} [DecidableEq α] (l : List (α × β)) (k : α) :
    lookupA (eraseA l k) k = none := by
  induction l with
  | nil => simp [lookupA, eraseA]
  | cons kv rest ih =>
    obtain ⟨a, b⟩ := kv
    by_cases hak : a = k
    · rw [eraseA, if_pos hak]
      exact ih
    · rw [eraseA, if_neg hak, lookupA_cons, if_neg hak]
      exact ih

theorem lookupA_eraseA_ne {α β : Type} [DecidableEq α] (l : List (α × β)) {k k' : α}
    (h : k' ≠ k) : lookupA (eraseA l k) k' = lookupA l k' := by
  induction l with
  | nil => simp [eraseA]
  | cons kv rest ih =>
    obtain ⟨a, b⟩ := kv
    by_cases hak : a = k
    · rw [eraseA, if_pos hak, lookupA_cons, if_neg (fun hh : a = k' => h (hh ▸ hak))]
      exact ih
    · rw [eraseA, if_neg hak, lookupA_cons, lookupA_cons]
      by_cases hak' : a = k'
      · rw [if_pos hak', if_pos hak']
      · rw [if_neg hak', if_neg hak']
        exact ih

theorem lookupA_eraseA_of_none {α β : Type} [DecidableEq α] (l : List (α × β)) {k' : α}
    (k : α) (h : lookupA l k' = none) : lookupA (eraseA l k) k' = none := by
  by_cases hk : k' = k
  · subst hk
    exact lookupA_eraseA_self l k'
  · rw [lookupA_eraseA_ne l hk]
    exact h

theorem getA_bumpA (l : List (Nat × Nat)) (s t : Nat) :
    getA (bumpA l s) t = if t = s then getA l t + 1 else getA l t := by
  induction l with
  | nil =>
    by_cases hts : t = s
    · subst hts
      simp [bumpA, getA, lookupA]
    · simp [bumpA, getA, lookupA, hts, Ne.symm hts]
  | cons kv rest ih =>
    obtain ⟨a, b⟩ := kv
    rw [bumpA]
    by_cases has : a = s
    · rw [if_pos has]
      subst has
      by_cases hta : t = a
      · subst hta
        simp [getA, lookupA_cons]
      · rw [if_neg hta]
        simp only [getA, lookupA_cons]
        rw [if_neg (fun hh : a = t => hta hh.symm), if_neg (fun hh : a = t => hta hh.symm)]
    · rw [if_neg has]
      by_cases hat : a = t
      · subst hat
        rw [if_neg (fun hh : a = s => has hh)]
        simp [getA, lookupA_cons]
      · simp only [getA, lookupA_cons, if_neg hat]
        exact ih

/-! ## `log_turn` step lemmas -/

theorem log_turn_of_limit {cfg : Config} {st : LoggerState} {c : Call}
    (h : limitReached cfg st c.step = true) : log_turn cfg st c = st := by
  simp [log_turn, h]

theorem turnsOf_log_turn_self {cfg : Config} {st : LoggerState} {c : Call}
    (h : limitReached cfg st c.step = false) :
    turnsOf (log_turn cfg st c) (keyOf c) =
      turnsOf st (keyOf c) ++ [mkTurnData cfg c] := by
  simp only [log_turn, h, Bool.false_eq_true, if_false]
  rcases hl : lookupA st.active (keyOf c) with _ | t
  · simp only [hl, turnsOf, lookupA_appendTurn]
    rw [lookupA_append_of_none hl]
    simp
  · simp only [hl, turnsOf, lookupA_appendTurn]
    simp

theorem turnsOf_log_turn_ne {cfg : Config} {st : LoggerState} {c : Call} {k : TrajKey}
    (h : k ≠ keyOf c) : turnsOf (log_turn cfg st c) k = turnsOf st k := by
  rcases hlim : limitReached cfg st c.step with _ | _
  · simp only [log_turn, hlim, Bool.false_eq_true, if_false]
    rcases hl : lookupA st.active (keyOf c) with _ | t
    · simp only [hl, turnsOf, lookupA_appendTurn]
      rcases hk : lookupA st.active k with _ | tk
      · rw [lookupA_append_of_none hk, if_neg (fun hh : keyOf c = k => h hh.symm)]
        rfl
      · rw [lookupA_append_of_some hk]
        simp [h]
    · simp only [hl, turnsOf, lookupA_appendTurn]
      rcases hk : lookupA st.active k with _ | tk
      · simp [hk]
      · simp [hk, h]
  · rw [log_turn_of_limit hlim]

theorem turnsOf_log_turn_cases (cfg : Config) (st : LoggerState) (c : Call)
    (k : TrajKey) :
    turnsOf (log_turn cfg st c) k = turnsOf st k ∨
      (keyOf c = k ∧
        turnsOf (log_turn cfg st c) k = turnsOf st k ++ [mkTurnData cfg c]) := by
  by_cases hk : k = keyOf c
  · subst hk
    rcases hlim : limitReached cfg st c.step with _ | _
    · exact Or.inr ⟨rfl, turnsOf_log_turn_self hlim⟩
    · exact Or.inl (by rw [log_turn_of_limit hlim])
  · exact Or.inl (turnsOf_log_turn_ne hk)

theorem counts_log_turn (cfg : Config) (st : LoggerState) (c : Call) (s : Nat) :
    getA (log_turn cfg st c).counts s =
      getA st.counts s + (if createsB cfg st c = true ∧ c.step = s then 1 else 0) := by
  rcases hlim : limitReached cfg st c.step with _ | _
  · simp only [log_turn, hlim, Bool.false_eq_true, if_false]
    rcases hl : lookupA st.active (keyOf c) with _ | t
    · simp only [hl]
      rw [getA_bumpA]
      have hcb : createsB cfg st c = true := by
        simp [createsB, hlim, hl]
      by_cases hcs : c.step = s
      · rw [if_pos (hcs ▸ rfl), if_pos ⟨hcb, hcs⟩]
      · rw [if_neg (fun hh : s = c.step => hcs hh.symm),
          if_neg (fun hh => hcs hh.2)]
        rfl
    · have hcb : createsB cfg st c = false := by
        simp [createsB, hl]
      simp [hl, hcb]
  · have hcb : createsB cfg st c = false := by
      simp [createsB, hlim]
    rw [log_turn_of_limit hlim]
    simp [hcb]

theorem counts_le_log_turn {cfg : Config} {st : LoggerState} {c : Call} {s m : Nat}
    (hm : cfg.max_trajectories_per_step = some m) (h : getA st.counts s ≤ m) :
    getA (log_turn cfg st c).counts s ≤ m := by
  rcases hlim : limitReached cfg st c.step with _ | _
  · have hlt : getA st.counts c.step < m := by
      simp only [limitReached, hm, decide_eq_false_iff_not, not_le] at hlim
      exact hlim
    rw [counts_log_turn]
    by_cases hcr : createsB cfg st c = true ∧ c.step = s
    · rcases hcr with ⟨hcb, hcs⟩
      subst hcs
      rw [if_pos ⟨hcb, rfl⟩]
      omega
    · rw [if_neg hcr]
      simpa using h
  · rw [log_turn_of_limit hlim]
    exact h

/-! ## Run-level lemmas -/

theorem counts_runCalls (cfg : Config) (cs : List Call) :
    ∀ (st : LoggerState) (s : Nat),
      getA (runCalls cfg st cs).counts s =
        getA st.counts s + creationsFrom cfg st cs s := by
  induction cs with
  | nil =>
    intro st s
    simp [runCalls, creationsFrom]
  | cons c rest ih =>
    intro st s
    have h1 : runCalls cfg st (c :: rest) = runCalls cfg (log_turn cfg st c) rest := rfl
    rw [h1, ih, counts_log_turn, creationsFrom]
    omega

theorem counts_le_runCalls {cfg : Config} {m : Nat}
    (hm : cfg.max_trajectories_per_step = some m) (cs : List Call) :
    ∀ (st : LoggerState) (s : Nat), getA st.counts s ≤ m →
      getA (runCalls cfg st cs).counts s ≤ m := by
  induction cs with
  | nil =>
    intro st s h
    simpa [runCalls] using h
  | cons c rest ih =>
    intro st s h
    exact ih (log_turn cfg st c) s (counts_le_log_turn hm h)

theorem turnsOf_runCalls_sublist (cfg : Config) (k : TrajKey) (cs : List Call) :
    ∀ st : LoggerState, ∃ sub : List Call, sub.Sublist cs ∧ (∀ c ∈ sub, keyOf c = k) ∧
      turnsOf (runCalls cfg st cs) k = turnsOf st k ++ sub.map (mkTurnData cfg) := by
  induction cs with
  | nil =>
    intro st
    exact ⟨[], List.Sublist.refl _, by simp, by simp [runCalls]⟩
  | cons c rest ih =>
    intro st
    obtain ⟨sub, hsub, hkey, heq⟩ := ih (log_turn cfg st c)
    have h1 : runCalls cfg st (c :: rest) = runCalls cfg (log_turn cfg st c) rest := rfl
    rcases turnsOf_log_turn_cases cfg st c k with hsame | ⟨hck, happ⟩
    · exact ⟨sub, hsub.cons c, hkey, by rw [h1, heq, hsame]⟩
    · refine ⟨c :: sub, hsub.cons₂ c, ?_, ?_⟩
      · intro x hx
        rcases List.mem_cons.mp hx with h2 | h2
        · rw [h2]
          exact hck
        · exact hkey x h2
      · rw [h1, heq, happ, List.map_cons]
        simp

/-! ## `finalize_trajectories` lemmas -/

theorem processPairs_of_empty_active (trajectories : List (List Outcome)) (step : Nat)
    (mode now : String) (pairs : List (Nat × Nat)) (st : LoggerState)
    (ws : List (TrajKey × FinalizedTrajectory)) (h : st.active = []) :
    processPairs trajectories step mode now pairs st ws = (st, ws, false) := by
  induction pairs with
  | nil => rfl
  | cons pg rest ih =>
    obtain ⟨p, g⟩ := pg
    rw [processPairs]
    rw [show lookupA st.active (step, p, g) = none from by rw [h]; rfl]
    exact ih

theorem processPairs_not_written (trajectories : List (List Outcome)) (step : Nat)
    (mode now : String) (k : TrajKey) :
    ∀ (pairs : List (Nat × Nat)) (st : LoggerState)
      (ws : List (TrajKey × FinalizedTrajectory)),
      lookupA st.active k = none → k ∉ ws.map Prod.fst →
      k ∉ ((processPairs trajectories step mode now pairs st ws).2.1).map Prod.fst := by
  intro pairs
  induction pairs with
  | nil =>
    intro st ws hk hw
    exact hw
  | cons pg rest ih =>
    obtain ⟨p, g⟩ := pg
    intro st ws hk hw
    rw [processPairs]
    rcases hl : lookupA st.active (step, p, g) with _ | logged
    · exact ih st ws hk hw
    · rcases hq : outcomeAt trajectories p g with _ | traj
      · exact hw
      · have hne : k ≠ (step, p, g) := by
          intro hh
          rw [hh, hl] at hk
          exact Option.noConfusion hk
        have hk2 : lookupA (eraseA st.active (step, p, g)) k = none :=
          lookupA_eraseA_of_none st.active (step, p, g) hk
        have hw2 : k ∉ (ws ++ [((step, p, g), finalizeOne logged traj mode now)]).map
            Prod.fst := by
          rw [List.map_append]
          intro hmem
          rcases List.mem_append.mp hmem with h2 | h2
          · exact hw h2
          · exact hne (by simpa using h2)
        exact ih _ _ hk2 hw2

theorem processPairs_writes_nodup (trajectories : List (List Outcome)) (step : Nat)
    (mode now : String) :
    ∀ (pairs : List (Nat × Nat)) (st : LoggerState)
      (ws : List (TrajKey × FinalizedTrajectory)),
      (ws.map Prod.fst).Nodup →
      (∀ k ∈ ws.map Prod.fst, lookupA st.active k = none) →
      (((processPairs trajectories step mode now pairs st ws).2.1).map Prod.fst).Nodup := by
  intro pairs
  induction pairs with
  | nil =>
    intro st ws hnd hall
    exact hnd
  | cons pg rest ih =>
    obtain ⟨p, g⟩ := pg
    intro st ws hnd hall
    rw [processPairs]
    rcases hl : lookupA st.active (step, p, g) with _ | logged
    · exact ih st ws hnd hall
    · rcases hq : outcomeAt trajectories p g with _ | traj
      · exact hnd
      · have hnotin : (step, p, g) ∉ ws.map Prod.fst := by
          intro hmem
          rw [hall (step, p, g) hmem] at hl
          exact Option.noConfusion hl
        have hnd2 : ((ws ++ [((step, p, g), finalizeOne logged traj mode now)]).map
            Prod.fst).Nodup := by
          rw [List.map_append]
          simp [List.nodup_append, hnd, hnotin]
        have hall2 : ∀ k ∈ (ws ++ [((step, p, g), finalizeOne logged traj mode now)]).map
            Prod.fst, lookupA (eraseA st.active (step, p, g)) k = none := by
          intro k hmem
          rw [List.map_append] at hmem
          rcases List.mem_append.mp hmem with h2 | h2
          · exact lookupA_eraseA_of_none st.active (step, p, g) (hall k h2)
          · have : k = (step, p, g) := by simpa using h2
            rw [this]
            exact lookupA_eraseA_self st.active (step, p, g)
        exact ih _ _ hnd2 hall2

theorem finalize_of_empty_active (st : LoggerState) (ts : List (List Outcome))
    (step : Nat) (mode now : String) (h : st.active = []) :
    finalize_trajectories st ts step mode now =
      { state := st, writes := [], warning := none, error := false } := by
  unfold finalize_trajectories
  rw [processPairs_of_empty_active ts step mode now (pairsOf ts) st [] h]
  simp [h]

theorem finalize_active_of_no_error (st : LoggerState) (ts : List (List Outcome))
    (step : Nat) (mode now : String)
    (h : (finalize_trajectories st ts step mode now).error = false) :
    (finalize_trajectories st ts step mode now).state.active = [] := by
  unfold finalize_trajectories at h ⊢
  rcases hp : processPairs ts step mode now (pairsOf ts) st [] with ⟨st1, ws, err⟩
  rw [hp] at h
  cases err
  · by_cases he : st1.active.isEmpty
    · have hnil : st1.active = [] := by
        cases hact : st1.active with
        | nil => rfl
        | cons x xs =>
          rw [hact] at he
          simp [List.isEmpty] at he
      simp [he, hnil]
    · simp [he]
  · simp at h

theorem finalize_writes_eq (st : LoggerState) (ts : List (List Outcome))
    (step : Nat) (mode now : String) :
    (finalize_trajectories st ts step mode now).writes =
      (processPairs ts step mode now (pairsOf ts) st []).2.1 := by
  unfold finalize_trajectories
  rcases hp : processPairs ts step mode now (pairsOf ts) st [] with ⟨st1, ws, err⟩
  cases err
  · by_cases he : st1.active.isEmpty <;> simp [he]
  · simp

theorem finalize_writes_nodup (st : LoggerState) (ts : List (List Outcome))
    (step : Nat) (mode now : String) :
    (((finalize_trajectories st ts step mode now).writes).map Prod.fst).Nodup := by
  rw [finalize_writes_eq]
  exact processPairs_writes_nodup ts step mode now (pairsOf ts) st []
    List.nodup_nil (by simp)

/-! ## Image-field lemmas -/

theorem imageFields_exclusive (cfg : Config) (tid : String) (ti : Nat)
    (image : Option ImageObj) :
    ((imageFields cfg tid ti image).1.isSome &&
      (imageFields cfg tid ti image).2.isSome) = false := by
  rcases hsi : cfg.save_images with _ | _
  · simp [imageFields, hsi]
  · rcases image with _ | img
    · simp [imageFields, hsi]
    · rcases hs : img.hasSave with _ | _
      · simp [imageFields, hsi, hs]
      · rcases hsr : img.saveRaises with _ | e
        · simp [imageFields, hsi, hs, hsr]
        · simp [imageFields, hsi, hs, hsr]

theorem imageFields_bad (cfg : Config) (tid : String) (ti : Nat) (img : ImageObj)
    (hsi : cfg.save_images = true)
    (hbad : img.hasSave = false ∨ img.saveRaises.isSome = true) :
    (imageFields cfg tid ti (some img)).1 = none ∧
    (imageFields cfg tid ti (some img)).2.isSome = true := by
  rcases hbad with hb | hb
  · constructor <;> simp [imageFields, hsi, hb]
  · rcases hsr : img.saveRaises with _ | e
    · rw [hsr] at hb
      simp at hb
    · rcases hs : img.hasSave with _ | _
      · constructor <;> simp [imageFields, hsi, hs]
      · constructor <;> simp [imageFields, hsi, hs, hsr]

/-! ## Claim theorems -/

/-- C1, counterexample: with `max_trajectories_per_step = 1`, the key
(0,0,0) already has an InFlightTrajectory after its first `record_turn`
call, yet the second call for the same key appends nothing: the turn list
is unchanged, so a call for an admitted key does NOT proceed regardless of
the per-step started-counter. -/
theorem C1_counterexample :
    (lookupA stA1.active (0, 0, 0)).isSome = true ∧
    turnsOf stA2 (0, 0, 0) = turnsOf stA1 (0, 0, 0) ∧
    decide (turnsOf stA2 (0, 0, 0) =
      turnsOf stA1 (0, 0, 0) ++ [mkTurnData cfgQuota1 callA1]) = false := by
  decide

/-- C1, amended: a `record_turn` call for a key that already has an
InFlightTrajectory appends its TurnRecord exactly when the step's
started-counter is still below the configured maximum (the quota check of
lines 91-96 runs before the key-existence check, so once the counter
reaches the maximum even calls for admitted keys return early and their
turns are dropped). -/
theorem C1_admitted_key_append_iff_quota (cfg : Config) (st : LoggerState)
    (c : Call) (t : InFlightTrajectory)
    (h : lookupA st.active (keyOf c) = some t) :
    turnsOf (log_turn cfg st c) (keyOf c) =
      if limitReached cfg st c.step then t.turns
      else t.turns ++ [mkTurnData cfg c] := by
  have ht : turnsOf st (keyOf c) = t.turns := by
    simp [turnsOf, h]
  rcases hlim : limitReached cfg st c.step with _ | _
  · rw [if_neg (by simp), turnsOf_log_turn_self hlim, ht]
  · rw [if_pos rfl, log_turn_of_limit hlim]
    exact ht

/-- C1, witness for the amended theorem: under quota 2 the admitted key's
second turn is appended (counter 1 < 2). -/
theorem C1_admitted_key_append_iff_quota_witness :
    turnsOf (log_turn cfgQuota2 stB1 callA1) (keyOf callA1) =
      if limitReached cfgQuota2 stB1 callA1.step then tB.turns
      else tB.turns ++ [mkTurnData cfgQuota2 callA1] :=
  C1_admitted_key_append_iff_quota cfgQuota2 stB1 callA1 tB (by decide)

/-- C2, evaluation at the failing input: with trajectories in flight for
step 0 (key (0,0,0)) and step 1 (key (1,0,0)), `finalize_trajectories` for
step 0 writes the step-0 record, then the cleanup of lines 194-198 clears
the step-1 trajectory as well (the whole in-flight dict) and counts it in
the warning — the in-flight trajectory keyed to a step other than the one
being finalized is NOT left in the in-flight set. -/
theorem C2_cross_step_cleanup_eval :
    resCross.state.active = [] ∧
    resCross.warning = some 1 ∧
    resCross.writes.map Prod.fst = [(0, 0, 0)] ∧
    resCross.error = false ∧
    (lookupA stCross.active (1, 0, 0)).isSome = true := by
  decide

/-- C3: for every sequence of `record_turn` calls with pairwise distinct
keys and a configured per-step maximum `m`, the number of
InFlightTrajectory allocations performed for any single step never exceeds
`m`, whatever the interleaving. -/
theorem C3_quota_never_exceeded (cfg : Config) (cs : List Call) (s m : Nat)
    (hm : cfg.max_trajectories_per_step = some m)
    (_hdistinct : (cs.map keyOf).Nodup) :
    creationsFrom cfg initState cs s ≤ m := by
  have h1 := counts_runCalls cfg cs initState s
  have h2 := counts_le_runCalls hm cs initState s (by simp [initState, getA, lookupA])
  rw [h1] at h2
  simpa [initState, getA, lookupA] using h2

/-- C3, witness: three distinct-key calls under quota 2 create at most 2
step-0 entries. -/
theorem C3_quota_never_exceeded_witness :
    creationsFrom cfgQuota2 initState [callA0, callC0, callD0] 0 ≤ 2 :=
  C3_quota_never_exceeded cfgQuota2 [callA0, callC0, callD0] 0 2 rfl (by decide)

/-- C4: a key whose first `record_turn` call arrives once the step's
counter has already reached the maximum gets no InFlightTrajectory and no
counter increment (the call leaves the state untouched), and any key with
no InFlightTrajectory when `finalize_trajectories` runs is absent from the
durable writes even when the outcome structure covers its position (the
pair is skipped silently at lines 166-168). -/
theorem C4_quota_skip_and_absent_from_output :
    (∀ (cfg : Config) (st : LoggerState) (c : Call) (m : Nat),
        cfg.max_trajectories_per_step = some m →
        m ≤ getA st.counts c.step →
        lookupA st.active (keyOf c) = none →
        log_turn cfg st c = st) ∧
    (∀ (st : LoggerState) (ts : List (List Outcome)) (step : Nat)
        (mode now : String) (k : TrajKey),
        lookupA st.active k = none →
        k ∉ ((finalize_trajectories st ts step mode now).writes).map Prod.fst) := by
  constructor
  · intro cfg st c m hm hc _
    exact log_turn_of_limit (by simp [limitReached, hm, hc])
  · intro st ts step mode now k hk
    rw [finalize_writes_eq]
    exact processPairs_not_written ts step mode now k (pairsOf ts) st [] hk (by simp)

/-- C5: for any call sequence and any key, the turns stored for that key
are exactly the images of a subsequence of the call sequence (arrival
order, never re-sorted), each carrying its call's `turn_index` verbatim,
and `finalize_trajectories` copies the stored turn list into the written
record unchanged (`finalizeOne` keeps `turns` verbatim). -/
theorem C5_turn_order_roundtrip (cfg : Config) (cs : List Call) (k : TrajKey) :
    (∃ sub : List Call, sub.Sublist cs ∧ (∀ c ∈ sub, keyOf c = k) ∧
      (∀ c ∈ sub, (mkTurnData cfg c).turn_idx = c.turn_idx) ∧
      turnsOf (runCalls cfg initState cs) k = sub.map (mkTurnData cfg)) ∧
    (∀ (logged : InFlightTrajectory) (o : Outcome) (mode now : String),
      (finalizeOne logged o mode now).turns = logged.turns) := by
  constructor
  · obtain ⟨sub, hsub, hkey, heq⟩ := turnsOf_runCalls_sublist cfg k cs initState
    refine ⟨sub, hsub, hkey, fun c _ => rfl, ?_⟩
    rw [heq]
    simp [turnsOf, initState, lookupA]
  · intro logged o mode now
    rfl

/-- C6: with image saving enabled and an image supplied, if the object has
no save capability or its save raises, the built TurnRecord carries an
`image_error` and no `image_path` (and in every TurnRecord the two fields
are mutually exclusive), the turn is still appended for a call that passes
the quota check, and finalization copies the turns unchanged. -/
theorem C6_image_error_captured (cfg : Config) (st : LoggerState) (c : Call)
    (img : ImageObj) (hsi : cfg.save_images = true) (hci : c.image = some img)
    (hbad : img.hasSave = false ∨ img.saveRaises.isSome = true)
    (hlim : limitReached cfg st c.step = false) :
    (mkTurnData cfg c).image_error.isSome = true ∧
    (mkTurnData cfg c).image_path = none ∧
    (∀ (cfg2 : Config) (c2 : Call),
      ((mkTurnData cfg2 c2).image_path.isSome &&
        (mkTurnData cfg2 c2).image_error.isSome) = false) ∧
    turnsOf (log_turn cfg st c) (keyOf c) =
      turnsOf st (keyOf c) ++ [mkTurnData cfg c] ∧
    (∀ (logged : InFlightTrajectory) (o : Outcome) (mode now : String),
      (finalizeOne logged o mode now).turns = logged.turns) := by
  have h1 := imageFields_bad cfg (trajIdOf c.step c.prompt_idx c.gen_idx)
    c.turn_idx img hsi hbad
  refine ⟨?_, ?_, ?_, turnsOf_log_turn_self hlim, fun logged o mode now => rfl⟩
  · show (imageFields cfg (trajIdOf c.step c.prompt_idx c.gen_idx)
      c.turn_idx c.image).2.isSome = true
    rw [hci]
    exact h1.2
  · show (imageFields cfg (trajIdOf c.step c.prompt_idx c.gen_idx)
      c.turn_idx c.image).1 = none
    rw [hci]
    exact h1.1
  · intro cfg2 c2
    exact imageFields_exclusive cfg2 (trajIdOf c2.step c2.prompt_idx c2.gen_idx)
      c2.turn_idx c2.image

/-- C6, witness: a save-incapable image on a fresh logger yields an
`image_error` and no `image_path`. -/
theorem C6_image_error_captured_witness :
    (mkTurnData cfgImg callImgBad).image_error.isSome = true ∧
    (mkTurnData cfgImg callImgBad).image_path = none :=
  ⟨(C6_image_error_captured cfgImg initState callImgBad imgBad rfl rfl
      (Or.inl rfl) (by decide)).1,
   (C6_image_error_captured cfgImg initState callImgBad imgBad rfl rfl
      (Or.inl rfl) (by decide)).2.1⟩

/-- C7: when a `finalize_trajectories` call for a step raises no index
error, repeating it with the same outcome structure is a no-op: the second
call writes nothing, prints no warning, raises no error and leaves the
state as the first call left it; and the first call's writes carry
pairwise distinct keys, so storage keyed by identifier holds exactly one
durable record per finalized trajectory. -/
theorem C7_finalize_idempotent (st : LoggerState) (ts : List (List Outcome))
    (step : Nat) (mode now mode2 now2 : String)
    (h : (finalize_trajectories st ts step mode now).error = false) :
    finalize_trajectories (finalize_trajectories st ts step mode now).state
        ts step mode2 now2 =
      { state := (finalize_trajectories st ts step mode now).state,
        writes := [], warning := none, error := false } ∧
    (((finalize_trajectories st ts step mode now).writes).map Prod.fst).Nodup := by
  refine ⟨?_, finalize_writes_nodup st ts step mode now⟩
  exact finalize_of_empty_active _ ts step mode2 now2
    (finalize_active_of_no_error st ts step mode now h)

/-- C7, witness: finalizing step 0 twice on a one-trajectory state. -/
theorem C7_finalize_idempotent_witness :
    finalize_trajectories (finalize_trajectories st7 [[outcome1]] 0 "train" "t1").state
        [[outcome1]] 0 "eval" "t2" =
      { state := (finalize_trajectories st7 [[outcome1]] 0 "train" "t1").state,
        writes := [], warning := none, error := false } ∧
    (((finalize_trajectories st7 [[outcome1]] 0 "train" "t1").writes).map Prod.fst).Nodup :=
  C7_finalize_idempotent st7 [[outcome1]] 0 "train" "t1" "eval" "t2" (by decide)

/-- C8: when no durable record matches the requested step (or the
catch-all request on an empty store), `generate_html_report` writes no
output document, renders nothing, and signals not-found (the early return
with the "No trajectories found" print, lines 217-219). -/
theorem C8_report_not_found (storage : List (String × FinalizedTrajectory))
    (step : Option Nat) (h : ∀ kv ∈ storage, stepMatches step kv.1 = false) :
    (generate_html_report storage step).output = none ∧
    (generate_html_report storage step).notFound = true ∧
    (generate_html_report storage step).entries = [] := by
  have hfilter : storage.filter (fun kv => stepMatches step kv.1) = [] := by
    rw [List.filter_eq_nil_iff]
    intro kv hkv
    simp [h kv hkv]
  have hfiles : trajectoryFilesOf storage step = [] := by
    unfold trajectoryFilesOf
    rw [hfilter]
    rfl
  simp [generate_html_report, hfiles]

/-- C8, witness: a store holding only a step-1 record matches nothing for
step 2. -/
theorem C8_report_not_found_witness :
    (generate_html_report storageOne (some 2)).output = none ∧
    (generate_html_report storageOne (some 2)).notFound = true ∧
    (generate_html_report storageOne (some 2)).entries = [] :=
  C8_report_not_found storageOne (some 2) (by decide)

/-- C9: `finalize_trajectories` applies `len(trajectories[0])` as the
generation count of every row; on the ragged input
`[[outcome, outcome], [outcome]]` with trajectories logged at (0,0,0) and
(0,1,1), the unguarded index raises (error flag set) only after the
(0,0,0) trajectory was already written and removed, the (0,1,1) trajectory
is left in flight and no cleanup warning runs — the operation is not
atomic on such input. -/
theorem C9_ragged_nonatomic_eval :
    res9.error = true ∧
    res9.writes.map Prod.fst = [(0, 0, 0)] ∧
    lookupA res9.state.active (0, 0, 0) = none ∧
    (lookupA res9.state.active (0, 1, 1)).isSome = true ∧
    res9.warning = none ∧
    (∀ (row : List Outcome) (rest : List (List Outcome)),
      numGenerationsOf (row :: rest) = row.length) := by
  exact ⟨by decide, by decide, by decide, by decide, by decide,
    fun row rest => rfl⟩

/-- C10: in the rendered report, the class rendered for a record whose
reward is exactly 0 — including the 0.0 default taken when the JSON
document has no reward key — is "positive", never "negative"; the
positive/negative split of line 250 sits exactly at `reward >= 0`. -/
theorem C10_zero_reward_positive (storage : List (String × FinalizedTrajectory))
    (step : Option Nat) (f cls : String) (rec : FinalizedTrajectory)
    (hmem : (f, cls) ∈ (generate_html_report storage step).entries)
    (hlook : lookupA storage f = some rec) (hz : rec.reward.getD 0 = 0) :
    cls = "positive" ∧ cls ≠ "negative" ∧
    (∀ r : Rat, rewardClass r = "positive" ↔ 0 ≤ r) := by
  have hiff : ∀ r : Rat, rewardClass r = "positive" ↔ 0 ≤ r := by
    intro r
    unfold rewardClass
    by_cases hr : (0 : Rat) ≤ r
    · simp [hr]
    · rw [if_neg hr]
      constructor
      · intro hcontra
        exact absurd hcontra (by decide)
      · intro hcontra
        exact absurd hcontra hr
  have hcls : cls = rewardClass (rec.reward.getD 0) := by
    unfold generate_html_report at hmem
    split at hmem
    · simp at hmem
    · simp only [List.mem_map] at hmem
      obtain ⟨f0, hf0, heq⟩ := hmem
      unfold renderEntry at heq
      rcases hl0 : lookupA storage f0 with _ | rec0
      · rw [hl0] at heq
        simp only [] at heq
        obtain ⟨h1, h2⟩ := Prod.mk.injEq .. |>.mp heq
        rw [h1, hlook] at hl0
        exact Option.noConfusion hl0
      · rw [hl0] at heq
        simp only [] at heq
        obtain ⟨h1, h2⟩ := Prod.mk.injEq .. |>.mp heq
        rw [h1, hlook] at hl0
        obtain rfl := Option.some.inj hl0
        rw [← h2]
  have hpos : cls = "positive" := by
    rw [hcls, hz]
    simp [rewardClass]
  exact ⟨hpos, by rw [hpos]; decide, hiff⟩

/-- C10, witness: the reward-less record renders with the positive class. -/
theorem C10_zero_reward_positive_witness :
    "positive" = "positive" ∧ "positive" ≠ "negative" ∧
    (∀ r : Rat, rewardClass r = "positive" ↔ 0 ≤ r) :=
  C10_zero_reward_positive storage10 none (trajIdOf 0 0 0) "positive" recNoReward
    (by decide) (by decide) (by decide)

end TrajLog
